import Mathlib

/-!
Shallow embedding of the declarative tree-extraction engine of
`src/packages/nodes-base/nodes/HtmlCheerio/V1/HtmlCheerioV1.node.ts`.

The engine receives a parsed HTML document (a DOM-like tree) and a list of
extraction rules (`ISelectField[]`) and produces a JSON-compatible record.
Selector evaluation is cheerio's `$base.find(selector)`: descendants of the
context node matching a CSS selector, in document order.  We model the CSS
subset `tag`, `.class`, `tag.class` which is enough to exercise every claim;
the contract that matters (descendant scoping, document order) holds for the
model by construction and is proved where a claim needs it.
-/

namespace HtmlCheerio

/-- A DOM-like tree node: either an element with a tag name, an ordered
attribute list and ordered children, or a text node. -/
inductive HNode where
  | elem (tag : String) (attrs : List (String × String)) (children : List HNode)
  | textN (s : String)
deriving Repr

/-- Attribute lookup `elem.attribs[name]`: first binding of the attribute, if present. -/
def HNode.getAttr : HNode → String → Option String
  | .elem _ attrs _, a => (attrs.find? (fun p => p.1 = a)).map (fun p => p.2)
  | .textN _, _ => none

mutual

/-- Text extraction `$(el).text()`: concatenation of all descendant text, document order. -/
def HNode.textContent : HNode → String
  | .textN s => s
  | .elem _ _ cs => textContentList cs

/-- Text content of a forest of children, in order. -/
def textContentList : List HNode → String
  | [] => ""
  | c :: cs => c.textContent ++ textContentList cs

end

mutual

/-- All proper descendants of a node, in document (pre-)order. -/
def HNode.descendants : HNode → List HNode
  | .textN _ => []
  | .elem _ _ cs => descList cs

/-- Pre-order traversal of a forest: each root followed by its descendants. -/
def descList : List HNode → List HNode
  | [] => []
  | c :: cs => c :: c.descendants ++ descList cs

end

/-- The whitespace class of JS `\s` and `String.prototype.trim`
(ASCII part; the non-ASCII whitespace code points are not exercised). -/
def isWs (c : Char) : Bool :=
  c = ' ' || c = '\t' || c = '\n' || c = '\r' || c = '\x0b' || c = '\x0c'

/-- Split a character list at every occurrence of the separator `d`
(the semantics of `String.splitOn` for a one-character separator). -/
def splitCh (d : Char) : List Char → List (List Char)
  | [] => [[]]
  | c :: rest =>
    match splitCh d rest with
    | [] => [[]]
    | h :: t => if c = d then [] :: h :: t else (c :: h) :: t

/-- The space-separated `class` attribute token list of an element. -/
def HNode.classList (n : HNode) : List String :=
  (splitCh ' ' ((n.getAttr "class").getD "").data).map List.asString
    |>.filter (fun s => s ≠ "")

/-- CSS matching for the modelled subset `tag`, `.class`, `tag.class`
(as css-select evaluates it for cheerio): split on `.`; the head must be
empty or equal to the tag, every remaining token must be one of the
element's classes.  Text nodes never match a CSS selector. -/
def selMatches (sel : String) : HNode → Bool
  | .textN _ => false
  | n@(.elem tag _ _) =>
    match (splitCh '.' sel.data).map List.asString with
    | [] => false
    | t :: cls => (t = "" || t = tag) && cls.all (fun c => (n.classList).contains c)

/-- Selector query `$base.find(selector)`: descendants of the context node matching the
selector, in document order. -/
def findAll (sel : String) (base : HNode) : List HNode :=
  base.descendants.filter (selMatches sel)

/-- JS `s.trim()` on the character list. -/
def jsTrim (l : List Char) : List Char :=
  ((l.dropWhile isWs).reverse.dropWhile isWs).reverse

/-- Core of the replacement `replace(/(\s*)\n+(\s*)/g, ' ')` applied to an
already trimmed character list.  Scanning left to right, the regex consumes a
whole maximal whitespace run whenever that run contains at least one `\n`
(the greedy `\s*` groups absorb the rest of the run around the newlines) and
replaces it by one space; runs without a newline never start a match and are
copied unchanged.  `pend` buffers the current whitespace run until its end is
seen. -/
def collapseGo (pend : List Char) : List Char → List Char
  | [] => if pend.contains '\n' then [' '] else pend
  | c :: rest =>
    if isWs c then collapseGo (pend ++ [c]) rest
    else (if pend.contains '\n' then [' '] else pend) ++ c :: collapseGo [] rest

/-- The `formatText` helper of the source:
`text.trim().replace(/(\s*)\n+(\s*)/g, ' ')`. -/
def formatText (s : String) : String :=
  ⟨collapseGo [] (jsTrim s.data)⟩

/-!
## Rule model

`ISelectField` of the source: `varName`, `selector`, `valueType`, `valueBy`,
`multi?`.  The rules arrive from `JSON.parse` without validation, so at run
time `valueType` is an arbitrary string (the TS union is erased) and
`valueBy` can be a string, a nested rule array, or absent (`undefined`).
`multi?: boolean` is treated by its truthiness, modelled as `Bool`
(absent = `false`).  A missing or empty `selector` is falsy; both are
modelled as `""` (the code only tests `!selector`).
-/

mutual

/-- The run-time shape of `valueBy`: absent (`undefined`), a string
(attribute name), or a nested rule array. -/
inductive ValueBy where
  | vbNone : ValueBy
  | vbStr : String → ValueBy
  | vbFields : List Field → ValueBy

/-- One extraction rule (`ISelectField`). -/
inductive Field where
  | mk (varName selector valueType : String) (valueBy : ValueBy) (multi : Bool)

end

/-- The `varName` component of a rule. -/
def Field.varName : Field → String
  | .mk v _ _ _ _ => v

/-- The `selector` component of a rule. -/
def Field.selector : Field → String
  | .mk _ s _ _ _ => s

/-- The `valueType` component of a rule. -/
def Field.valueType : Field → String
  | .mk _ _ t _ _ => t

/-- The `valueBy` component of a rule. -/
def Field.valueBy : Field → ValueBy
  | .mk _ _ _ b _ => b

/-- The truthiness of the `multi` component of a rule. -/
def Field.multi : Field → Bool
  | .mk _ _ _ _ m => m

/-!
## Result model

`IResolveFieldRecord` is a JS object mapping `varName` keys to resolved
values; values are strings, string arrays, nested records, or arrays of
nested records.  JS object assignment `result[varName] = v` overwrites an
existing key in place and appends a fresh key at the end, which we model on
an association list.
-/

/-- A resolved value (`IResolveFieldResult`). -/
inductive RValue where
  | s : String → RValue
  | sList : List String → RValue
  | obj : List (String × RValue) → RValue
  | objList : List (List (String × RValue)) → RValue

/-- A resolved record (`IResolveFieldRecord`): ordered key/value pairs. -/
abbrev RRecord := List (String × RValue)

/-- JS `result[k] = v`: overwrite an existing key in place, else append. -/
def setKey (r : RRecord) (k : String) (v : RValue) : RRecord :=
  if r.any (fun p => p.1 = k) then
    r.map (fun p => if p.1 = k then (k, v) else p)
  else r ++ [(k, v)]

/-- Key lookup in a resolved record. -/
def getKey (r : RRecord) (k : String) : Option RValue :=
  (r.find? (fun p => p.1 = k)).map (fun p => p.2)

/-!
## The extractor (`resolveSelectFields`)

Errors (`throw new NodeOperationError(...)`) are modelled with
`Except String`; an `.error` aborts the whole call, so no partial record is
returned, exactly as a thrown exception discards the local `result`.

The source never validates the shape of `valueBy` against `valueType`:

* the `text` branches never read `valueBy`;
* the `attr` branches evaluate `$(el).attr(valueBy) || ''` — only the string
  shape is modelled precisely (`attrOf`), because with `undefined` or an
  array cheerio takes its whole-attribs-getter / multi-setter paths, which
  no claim exercises;
* the `object` branches call `resolveSelectFields` on `valueBy` itself:
  - a rule array recurses normally;
  - a string is iterated by `for (const field of fields)` character by
    character, each character being a primitive whose destructured
    `selector` is `undefined`, hence falsy, so every "rule" is skipped and
    the result is the empty record — no error;
  - `undefined` makes `for ... of` itself throw a `TypeError` (a plain JS
    error, not the `NodeOperationError` carrying the rule name).
-/

/-- Attribute read `$(el).attr(valueBy) || ''` for a string attribute name: the attribute
value, or `""` when the attribute is absent (`undefined || '' === ''`).
The non-string shapes of `valueBy` are not exercised by any claim and are
modelled neutrally as `""`. -/
def attrOf (el : HNode) (vb : ValueBy) : String :=
  match vb with
  | .vbStr a => (el.getAttr a).getD ""
  | .vbNone => ""
  | .vbFields _ => ""

mutual

/-- The `for (const field of fields)` loop of `resolveSelectFields`,
threading the `result` object (`acc`). -/
def resolveFields : List Field → HNode → RRecord → Except String RRecord
  | [], _, acc => .ok acc
  | f :: rest, base, acc =>
    match resolveField f base acc with
    | .ok acc' => resolveFields rest base acc'
    | .error e => .error e

/-- One iteration of the loop body of `resolveSelectFields` for rule `f`
against context node `base`: skip on falsy selector, query
`$base.find(selector)`, then branch on `multi` and `valueType` exactly as
the source does, writing into the accumulated record. -/
def resolveField : Field → HNode → RRecord → Except String RRecord
  | .mk varName selector valueType valueBy multi, base, acc =>
    if selector = "" then .ok acc
    else
      let targets := findAll selector base
      if multi then
        if valueType = "text" then
          .ok (setKey acc varName (.sList (targets.map (fun el => formatText el.textContent))))
        else if valueType = "attr" then
          .ok (setKey acc varName (.sList (targets.map (fun el => attrOf el valueBy))))
        else if valueType = "object" then
          match resolveMany valueBy targets with
          | .ok subs => .ok (setKey acc varName (.objList subs))
          | .error e => .error e
        else .error (varName ++ ": 非法的valueType: " ++ valueType)
      else
        match targets with
        | [] => .ok acc
        | el :: _ =>
          if valueType = "text" then
            .ok (setKey acc varName (.s (formatText el.textContent)))
          else if valueType = "attr" then
            .ok (setKey acc varName (.s (attrOf el valueBy)))
          else if valueType = "object" then
            match resolveSub valueBy el with
            | .ok sub => .ok (setKey acc varName (.obj sub))
            | .error e => .error e
          else .error (varName ++ ": 非法的valueType: " ++ valueType)

/-- The nested call `resolveSelectFields.call(this, valueBy, $, $(el))` with the run-time
`valueBy` value: a rule array recurses; a string yields the empty record
(its characters are all skipped, see the section comment); `undefined`
throws a `TypeError` before any rule is read. -/
def resolveSub : ValueBy → HNode → Except String RRecord
  | .vbFields fs, n => resolveFields fs n []
  | .vbStr _, _ => .ok []
  | .vbNone, _ => .error "TypeError: undefined is not iterable"

/-- The loop `els.forEach((el) => subRecords.push(resolveSelectFields(...)))`: one
nested record per matched node, in document order; a thrown error inside
the loop aborts the whole computation. -/
def resolveMany : ValueBy → List HNode → Except String (List RRecord)
  | _, [] => .ok []
  | vb, n :: ns =>
    match resolveSub vb n with
    | .ok r =>
      match resolveMany vb ns with
      | .ok rs => .ok (r :: rs)
      | .error e => .error e
    | .error e => .error e

end

/-- Entry point `resolveSelectFields(fields, $, $base)`: run the rules against the
context node with a fresh `result = {}`. -/
def resolveSelectFields (fields : List Field) (base : HNode) : Except String RRecord :=
  resolveFields fields base []

/-!
## The batch driver (`HtmlCheerioV1.execute`)

For each input item the driver reads its parameters, parses the `rules`
JSON, extracts the source HTML (a string or an array of strings, normalized
to an array), loads each string with cheerio and pushes one output record
per string, tagged `pairedItem: { item: idx }`.  A throw anywhere in the
item body is caught: with `continueOnFail()` the item contributes
`{ error: message }` (after whatever records its earlier strings already
pushed) and the loop continues; otherwise the error is re-raised and
nothing is returned.

The host-engine boundary (`getNodeParameter`, `JSON.parse` of the rules,
lodash `get` on the JSON property, the binary-data helpers) is modelled by
pre-resolved `Except` values carrying the same error messages the code
throws there; cheerio's `load` itself never throws, so each successfully
extracted source string is modelled directly as its parsed tree.
-/

/-- One input item as the driver sees it past the host-engine boundary:
the outcome of rule parsing and of source extraction.  `rules` is `.error`
when `JSON.parse` fails (the code throws `Rules are invalid. ...`); `docs`
is `.error` when the named JSON property is missing or the binary data
assertion fails. -/
structure ItemParams where
  rules : Except String (List Field)
  docs : Except String (List HNode)

/-- The `{ error: message }` record pushed for a failed item. -/
def errRecord (msg : String) : RRecord :=
  [("error", RValue.s msg)]

/-- The inner `for (const html of htmlArray)` loop: resolve each parsed
document in order, returning the records pushed before any throw and the
error, if one occurred (documents after a throw are not processed). -/
def runDocs (rules : List Field) : List HNode → List RRecord × Option String
  | [] => ([], none)
  | d :: ds =>
    match resolveSelectFields rules d with
    | .error e => ([], some e)
    | .ok r =>
      let (rs, err) := runDocs rules ds
      (r :: rs, err)

/-- The body of the `try` block for one item: rules parsing, source
extraction, then the per-document loop; the records already pushed survive
a later throw within the same item. -/
def processItem (p : ItemParams) : List RRecord × Option String :=
  match p.rules with
  | .error e => ([], some e)
  | .ok rules =>
    match p.docs with
    | .error e => ([], some e)
    | .ok docs => runDocs rules docs

/-- The item loop of `execute`, from item index `idx`: each output record
is paired with the index of the item that produced it
(`pairedItem: { item: idx }`).  On an item failure, `continueOnFail()`
decides between pushing `{ error }` and continuing, or re-raising (which
discards `returnData`). -/
def executeGo (cof : Bool) (idx : Nat) : List ItemParams → Except String (List (RRecord × Nat))
  | [] => .ok []
  | p :: ps =>
    match processItem p with
    | (recs, none) =>
      (executeGo cof (idx + 1) ps).map (fun rest => recs.map (fun r => (r, idx)) ++ rest)
    | (recs, some e) =>
      if cof then
        (executeGo cof (idx + 1) ps).map (fun rest =>
          recs.map (fun r => (r, idx)) ++ (errRecord e, idx) :: rest)
      else .error e

/-- The method `HtmlCheerioV1.execute`: run the item loop over all input items with
the node's continue-on-fail setting. -/
def execute (cof : Bool) (items : List ItemParams) : Except String (List (RRecord × Nat)) :=
  executeGo cof 0 items

/-- Closed form of the continue-on-failure output: every item contributes,
in input order, its successfully produced records followed — only when it
failed — by the `{ error }` placeholder, all tagged with the item's index. -/
def batchOut (idx : Nat) : List ItemParams → List (RRecord × Nat)
  | [] => []
  | p :: ps =>
    (match processItem p with
     | (recs, none) => recs.map (fun r => (r, idx))
     | (recs, some e) => recs.map (fun r => (r, idx)) ++ [(errRecord e, idx)]) ++
    batchOut (idx + 1) ps

/-!
## Demonstration documents used by the concrete witnesses
-/

/-- A document with a `p` but no `li`. -/
def demoNoLi : HNode :=
  .elem "div" [] [.elem "p" [] [.textN "x"]]

/-- Three `li` siblings in document order `A`, `B`, `C`. -/
def demoABC : HNode :=
  .elem "ul" [] [.elem "li" [] [.textN "A"], .elem "li" [] [.textN "B"],
    .elem "li" [] [.textN "C"]]

/-- A `div` containing a `span`, next to a sibling `span` outside it. -/
def demoNested : HNode :=
  .elem "root" [] [.elem "div" [] [.elem "span" [] [.textN "in"]],
    .elem "span" [] [.textN "out"]]

/-- A paragraph whose text is `"  Hello\n   World  "`. -/
def demoHello : HNode :=
  .elem "div" [] [.elem "p" [] [.textN "  Hello\n   World  "]]

/-- A `span` carrying no attributes at all. -/
def demoSpan : HNode :=
  .elem "div" [] [.elem "span" [] [.textN "s"]]

/-!
## Helper lemmas on the record model
-/

/-- Overwriting an existing key with `setKey`'s map pass makes the lookup
return the new value. -/
theorem getKey_map_overwrite (r : RRecord) (k : String) (v : RValue)
    (h : r.any (fun p => p.1 = k) = true) :
    getKey (r.map (fun p => if p.1 = k then (k, v) else p)) k = some v := by
  induction r with
  | nil => simp at h
  | cons p rest ih =>
    by_cases hp : p.1 = k
    · simp [getKey, List.find?, hp]
    · simp only [List.any_cons, Bool.or_eq_true, decide_eq_true_eq] at h
      rcases h with h | h
      · exact absurd h hp
      · simpa [getKey, List.find?, hp] using ih h

/-- Appending a fresh key at the end makes the lookup return its value. -/
theorem getKey_append_new (r : RRecord) (k : String) (v : RValue)
    (h : r.any (fun p => p.1 = k) = false) :
    getKey (r ++ [(k, v)]) k = some v := by
  induction r with
  | nil => simp [getKey, List.find?]
  | cons p rest ih =>
    simp only [List.any_cons, Bool.or_eq_false_iff, decide_eq_false_iff_not] at h
    simpa [getKey, List.find?, h.1] using ih (by simpa using h.2)

/-- Writing `result[k] = v` then reading `k` yields `v`: the last write wins. -/
theorem getKey_setKey (r : RRecord) (k : String) (v : RValue) :
    getKey (setKey r k v) k = some v := by
  by_cases h : r.any (fun p => p.1 = k) = true
  · simpa [setKey, h] using getKey_map_overwrite r k v h
  · have h' : r.any (fun p => p.1 = k) = false := by
      cases hb : r.any (fun p => p.1 = k) <;> simp_all
    simpa [setKey, h'] using getKey_append_new r k v h'

/-!
## The claims
-/

/-- C1: for every rule with `multi = false` whose selector matches no node
within the context node, `resolveSelectFields` omits that rule's key
entirely (the accumulated record is returned unchanged, so the key is
absent rather than bound to null or an empty value) and no error is
raised. -/
theorem claim1 (f : Field) (base : HNode) (h1 : f.multi = false)
    (h2 : findAll f.selector base = []) :
    (∀ acc, resolveField f base acc = .ok acc) ∧
    (resolveSelectFields [f] base = .ok [] ∧
      ∀ r, resolveSelectFields [f] base = .ok r → getKey r f.varName = none) := by
  obtain ⟨v, sel, vt, vb, m⟩ := f
  simp only [Field.multi] at h1
  simp only [Field.selector] at h2
  subst h1
  have hfield : ∀ acc, resolveField (.mk v sel vt vb false) base acc = .ok acc := by
    intro acc
    by_cases hs : sel = ""
    · simp [resolveField, hs]
    · simp [resolveField, hs, h2]
  refine ⟨hfield, ?_, ?_⟩
  · simp [resolveSelectFields, resolveFields, hfield]
  · intro r hr
    simp [resolveSelectFields, resolveFields, hfield] at hr
    subst hr
    simp [getKey, List.find?]

/-- Witness for C1: a `multi = false` text rule for `li` against a document
with no `li` leaves the record untouched, with no error. -/
theorem claim1_witness :
    resolveField (Field.mk "a" "li" "text" ValueBy.vbNone false) demoNoLi [] =
      Except.ok [] :=
  (claim1 (Field.mk "a" "li" "text" ValueBy.vbNone false) demoNoLi rfl
    (by simp +decide [findAll, demoNoLi, HNode.descendants, descList])).1 []

/-- C2: for every rule with `multi = true` whose selector matches no node,
and whose `valueType` is `text`, `attr` or `object`, the output record
includes the rule's key bound to an empty sequence. -/
theorem claim2 (name sel vt : String) (vb : ValueBy) (base : HNode) (acc : RRecord)
    (hs : sel ≠ "") (hm : findAll sel base = [])
    (hvt : vt = "text" ∨ vt = "attr" ∨ vt = "object") :
    ∃ emp, resolveField (.mk name sel vt vb true) base acc = .ok (setKey acc name emp) ∧
      (emp = RValue.sList [] ∨ emp = RValue.objList []) ∧
      getKey (setKey acc name emp) name = some emp ∧
      resolveSelectFields [.mk name sel vt vb true] base = .ok [(name, emp)] := by
  have hout : ∀ emp, setKey ([] : RRecord) name emp = [(name, emp)] := by
    intro emp; simp [setKey]
  rcases hvt with hvt | hvt | hvt <;> subst hvt
  · exact ⟨.sList [], by simp [resolveField, hs, hm],
      Or.inl rfl, getKey_setKey acc name _,
      by simp [resolveSelectFields, resolveFields, resolveField, hs, hm, hout]⟩
  · exact ⟨.sList [], by simp [resolveField, hs, hm],
      Or.inl rfl, getKey_setKey acc name _,
      by simp [resolveSelectFields, resolveFields, resolveField, hs, hm, hout]⟩
  · exact ⟨.objList [], by simp [resolveField, hs, hm, resolveMany],
      Or.inr rfl, getKey_setKey acc name _,
      by simp [resolveSelectFields, resolveFields, resolveField, hs, hm, resolveMany, hout]⟩

/-- Witness for C2: a `multi = true` text rule for `li` with no match binds
its key to the empty sequence. -/
theorem claim2_witness :
    ∃ emp, resolveField (.mk "xs" "li" "text" ValueBy.vbNone true) demoNoLi [] =
        .ok (setKey [] "xs" emp) ∧
      (emp = RValue.sList [] ∨ emp = RValue.objList []) ∧
      getKey (setKey [] "xs" emp) "xs" = some emp ∧
      resolveSelectFields [.mk "xs" "li" "text" ValueBy.vbNone true] demoNoLi =
        .ok [("xs", emp)] :=
  claim2 "xs" "li" "text" ValueBy.vbNone demoNoLi [] (by decide)
    (by simp +decide [findAll, demoNoLi, HNode.descendants, descList]) (Or.inl rfl)

/-- C3: a `text` rule resolves a matched node to `formatText` of its full
text content — leading/trailing whitespace trimmed and every whitespace run
containing a line break collapsed to one space, single-line whitespace runs
left unchanged; in particular `"  Hello\n   World  "` resolves to
`"Hello World"`. -/
theorem claim3 :
    (∀ (name sel : String) (vb : ValueBy) (base : HNode) (acc : RRecord)
        (el : HNode) (rest : List HNode), sel ≠ "" → findAll sel base = el :: rest →
        resolveField (.mk name sel "text" vb false) base acc =
          .ok (setKey acc name (.s (formatText el.textContent)))) ∧
    formatText "  Hello\n   World  " = "Hello World" ∧
    formatText "  Hello \t World  " = "Hello \t World" ∧
    formatText "\n x \r\n\r y \n" = "x y" := by
  refine ⟨?_, by decide, by decide, by decide⟩
  intro name sel vb base acc el rest hs hm
  simp [resolveField, hs, hm]

/-- Witness for C3: a text rule on a `p` whose content is
`"  Hello\n   World  "` yields `"Hello World"`. -/
theorem claim3_witness :
    resolveField (Field.mk "t" "p" "text" ValueBy.vbNone false) demoHello [] =
      Except.ok [("t", RValue.s "Hello World")] := by
  have h := claim3.1 "t" "p" ValueBy.vbNone demoHello []
    (.elem "p" [] [.textN "  Hello\n   World  "]) [] (by decide)
    (by simp +decide [findAll, demoHello, HNode.descendants, descList])
  rw [h]
  simp +decide [setKey, HNode.textContent, textContentList]

/-- C4: an `attr` rule on a matched node lacking the requested attribute
resolves to `""` with no error, in both the `multi = false` and the
`multi = true` branches. -/
theorem claim4 :
    (∀ (el : HNode) (a : String), el.getAttr a = none → attrOf el (.vbStr a) = "") ∧
    (∀ (name sel a : String) (base : HNode) (acc : RRecord) (el : HNode)
        (rest : List HNode), sel ≠ "" → findAll sel base = el :: rest →
        el.getAttr a = none →
        resolveField (.mk name sel "attr" (.vbStr a) false) base acc =
          .ok (setKey acc name (.s ""))) ∧
    (∀ (name sel a : String) (base : HNode) (acc : RRecord), sel ≠ "" →
        resolveField (.mk name sel "attr" (.vbStr a) true) base acc =
          .ok (setKey acc name (.sList ((findAll sel base).map
            (fun el => attrOf el (.vbStr a)))))) := by
  refine ⟨?_, ?_, ?_⟩
  · intro el a h
    simp [attrOf, h]
  · intro name sel a base acc el rest hs hm hattr
    simp [resolveField, hs, hm, attrOf, hattr]
  · intro name sel a base acc hs
    simp [resolveField, hs]

/-- Witness for C4: reading `data-id` off a `span` that has no attributes
yields `""` in the single branch and `[""]` in the multi branch. -/
theorem claim4_witness :
    resolveField (Field.mk "id" "span" "attr" (ValueBy.vbStr "data-id") false)
        demoSpan [] = Except.ok [("id", RValue.s "")] ∧
    resolveField (Field.mk "id" "span" "attr" (ValueBy.vbStr "data-id") true)
        demoSpan [] = Except.ok [("id", RValue.sList [""])] := by
  constructor
  · have h := claim4.2.1 "id" "span" "data-id" demoSpan [] (.elem "span" [] [.textN "s"]) []
      (by decide)
      (by simp +decide [findAll, demoSpan, HNode.descendants, descList])
      (by simp [HNode.getAttr, List.find?])
    rw [h]
    simp +decide [setKey]
  · have h := claim4.2.2 "id" "span" "data-id" demoSpan [] (by decide)
    rw [h]
    simp +decide [setKey, findAll, demoSpan, HNode.descendants, descList, attrOf,
      HNode.getAttr, List.find?]

/-- Counterexample to C5 as stated: a rule with the unrecognized
`valueType` `"bogus"`, `multi = false` and a selector matching nothing is
skipped silently — `resolveSelectFields` raises no error at all, because
the no-match skip happens before the `valueType` dispatch. -/
theorem claim5_counterexample :
    resolveSelectFields [Field.mk "x" "li" "bogus" ValueBy.vbNone false] demoNoLi =
      Except.ok [] := by
  simp +decide [resolveSelectFields, resolveFields, resolveField, findAll, demoNoLi,
    HNode.descendants, descList]

/-- C5 (amended): for every rule with an unrecognized `valueType` that is
actually reached by the value dispatch — non-empty selector, and either
`multi = true` or at least one matched node — evaluation raises the
invalid-rule error whose message carries the rule's name, and the error
aborts the entire resolve call (no partial record is returned). -/
theorem claim5 (name sel vt : String) (vb : ValueBy) (m : Bool) (base : HNode)
    (acc : RRecord) (hs : sel ≠ "") (ht : vt ≠ "text") (ha : vt ≠ "attr")
    (ho : vt ≠ "object") (hreach : m = true ∨ findAll sel base ≠ []) :
    resolveField (.mk name sel vt vb m) base acc =
      .error (name ++ ": 非法的valueType: " ++ vt) ∧
    ∀ rest, resolveFields (Field.mk name sel vt vb m :: rest) base acc =
      .error (name ++ ": 非法的valueType: " ++ vt) := by
  have hfield : resolveField (.mk name sel vt vb m) base acc =
      .error (name ++ ": 非法的valueType: " ++ vt) := by
    rcases hreach with hm | hne
    · subst hm
      simp [resolveField, hs, ht, ha, ho]
    · obtain ⟨el, rest, hel⟩ := List.exists_cons_of_ne_nil hne
      cases m
      · simp [resolveField, hs, hel, ht, ha, ho]
      · simp [resolveField, hs, ht, ha, ho]
  exact ⟨hfield, fun rest => by simp [resolveFields, hfield]⟩

/-- Witness for C5 (amended): `valueType = "bogus"` with `multi = true`
raises the error naming the rule even with zero matches, and the whole
resolve call returns that error. -/
theorem claim5_witness :
    resolveField (Field.mk "x" "li" "bogus" ValueBy.vbNone true) demoNoLi [] =
      Except.error "x: 非法的valueType: bogus" ∧
    resolveFields [Field.mk "x" "li" "bogus" ValueBy.vbNone true] demoNoLi [] =
      Except.error "x: 非法的valueType: bogus" := by
  have h := claim5 "x" "li" "bogus" ValueBy.vbNone true demoNoLi []
    (by decide) (by decide) (by decide) (by decide) (Or.inl rfl)
  exact ⟨h.1, h.2 []⟩

/-- C6: an `object` rule evaluates its nested rules with the matched node
as the new context node, and every selector query is scoped to descendants
of its context node only, so a node outside the matched subtree (e.g. a
sibling of the match) is never selected. -/
theorem claim6 :
    (∀ (name sel : String) (subs : List Field) (base : HNode) (acc : RRecord)
        (el : HNode) (rest : List HNode), sel ≠ "" → findAll sel base = el :: rest →
        resolveField (.mk name sel "object" (.vbFields subs) false) base acc =
          (resolveSelectFields subs el).map (fun sub => setKey acc name (.obj sub))) ∧
    (∀ (name sel : String) (subs : List Field) (base : HNode) (acc : RRecord),
        sel ≠ "" →
        resolveField (.mk name sel "object" (.vbFields subs) true) base acc =
          (resolveMany (.vbFields subs) (findAll sel base)).map
            (fun ss => setKey acc name (.objList ss))) ∧
    (∀ (subs : List Field) (n : HNode),
        resolveSub (.vbFields subs) n = resolveSelectFields subs n) ∧
    (∀ (sel : String) (n m : HNode), m ∈ findAll sel n → m ∈ n.descendants) := by
  refine ⟨?_, ?_, ?_, ?_⟩
  · intro name sel subs base acc el rest hs hm
    cases h : resolveSelectFields subs el with
    | ok sub =>
      simp only [resolveSelectFields] at h
      simp [resolveField, hs, hm, resolveSub, h, Except.map]
    | error e =>
      simp only [resolveSelectFields] at h
      simp [resolveField, hs, hm, resolveSub, h, Except.map]
  · intro name sel subs base acc hs
    cases h : resolveMany (.vbFields subs) (findAll sel base) with
    | ok ss => simp [resolveField, hs, h, Except.map]
    | error e => simp [resolveField, hs, h, Except.map]
  · intro subs n
    simp [resolveSub, resolveSelectFields]
  · intro sel n m hmem
    exact List.mem_of_mem_filter hmem

/-- Witness for C6: a nested `span` rule inside the `div` match sees only
the `span` inside the `div` (`"in"`), never the sibling `span`
(`"out"`). -/
theorem claim6_witness :
    resolveField (Field.mk "obj" "div" "object"
        (ValueBy.vbFields [Field.mk "s" "span" "text" ValueBy.vbNone true]) false)
      demoNested [] =
      Except.ok [("obj", RValue.obj [("s", RValue.sList ["in"])])] := by
  have h := claim6.1 "obj" "div" [Field.mk "s" "span" "text" ValueBy.vbNone true]
    demoNested [] (.elem "div" [] [.elem "span" [] [.textN "in"]]) [] (by decide)
    (by simp +decide [findAll, demoNested, HNode.descendants, descList])
  rw [h]
  simp +decide [resolveSelectFields, resolveFields, resolveField, findAll,
    HNode.descendants, descList, setKey, HNode.textContent, textContentList, Except.map]

/-- C7: rules are evaluated in sequence order (the loop step is the bind of
the rule step, and a later write to a key wins), and a `multi = true` rule
produces one value per matched node in document order — `findAll` is an
order-preserving sublist of the document-order descendant traversal. -/
theorem claim7 :
    (∀ (f : Field) (rest : List Field) (base : HNode) (acc : RRecord),
        resolveFields (f :: rest) base acc =
          (resolveField f base acc).bind (fun acc' => resolveFields rest base acc')) ∧
    (∀ (acc : RRecord) (k : String) (v : RValue), getKey (setKey acc k v) k = some v) ∧
    (∀ (sel : String) (base : HNode), (findAll sel base).Sublist base.descendants) ∧
    (∀ (name sel : String) (vb : ValueBy) (base : HNode) (acc : RRecord), sel ≠ "" →
        resolveField (.mk name sel "text" vb true) base acc =
          .ok (setKey acc name (.sList ((findAll sel base).map
            (fun el => formatText el.textContent))))) := by
  refine ⟨?_, ?_, ?_, ?_⟩
  · intro f rest base acc
    cases h : resolveField f base acc with
    | ok acc' => simp [resolveFields, h, Except.bind]
    | error e => simp [resolveFields, h, Except.bind]
  · exact getKey_setKey
  · intro sel base
    exact List.filter_sublist _
  · intro name sel vb base acc hs
    simp [resolveField, hs]

/-- Witness for C7: three sibling `li` matches in document order `A`, `B`,
`C` produce the sequence `["A", "B", "C"]`, and a later rule with the same
name overwrites the earlier rule's value. -/
theorem claim7_witness :
    resolveField (Field.mk "items" "li" "text" ValueBy.vbNone true) demoABC [] =
      Except.ok [("items", RValue.sList ["A", "B", "C"])] ∧
    resolveFields [Field.mk "v" "li" "text" ValueBy.vbNone false,
        Field.mk "v" "li" "text" ValueBy.vbNone true] demoABC [] =
      Except.ok [("v", RValue.sList ["A", "B", "C"])] := by
  constructor
  · have h := claim7.2.2.2 "items" "li" ValueBy.vbNone demoABC [] (by decide)
    rw [h]
    simp +decide [setKey, findAll, demoABC, HNode.descendants, descList,
      HNode.textContent, textContentList]
  · rw [claim7.1]
    simp +decide [resolveFields, resolveField, setKey, findAll, demoABC,
      HNode.descendants, descList, HNode.textContent, textContentList, Except.bind]

/-- Counterexample to C8 as stated: with continue-on-failure enabled, an
item whose first HTML string resolves fine and whose second string fails
keeps the first string's normal record next to the `{ error }` placeholder
(the placeholder is not "in place of" the item's normal output), and the
item's third string is never processed. -/
theorem claim8_counterexample :
    execute true [⟨.ok [Field.mk "x" "li" "bogus" ValueBy.vbNone false],
        .ok [demoNoLi, demoABC, demoNoLi]⟩] =
      .ok [([], 0), (errRecord "x: 非法的valueType: bogus", 0)] := by
  simp +decide [execute, executeGo, processItem, runDocs, resolveSelectFields,
    resolveFields, resolveField, findAll, demoNoLi, demoABC, HNode.descendants,
    descList, Except.map]

/-- C8 (amended): with continue-on-failure enabled the batch never aborts:
every item contributes, in input order, the records its HTML strings
produced before any failure, followed — only on failure — by the
`{ error: message }` placeholder, each output tagged with its item's index
(positional alignment); with the mode disabled, an item failure re-raises
and aborts the whole batch, while a successful item prepends its records
and processing continues. -/
theorem claim8 :
    (∀ (idx : Nat) (ps : List ItemParams),
        executeGo true idx ps = .ok (batchOut idx ps)) ∧
    (∀ (idx : Nat) (p : ItemParams) (ps : List ItemParams) (recs : List RRecord)
        (e : String), processItem p = (recs, some e) →
        executeGo false idx (p :: ps) = .error e) ∧
    (∀ (idx : Nat) (p : ItemParams) (ps : List ItemParams) (recs : List RRecord),
        processItem p = (recs, none) →
        executeGo false idx (p :: ps) =
          (executeGo false (idx + 1) ps).map
            (fun rest => recs.map (fun r => (r, idx)) ++ rest)) := by
  refine ⟨?_, ?_, ?_⟩
  · intro idx ps
    induction ps generalizing idx with
    | nil => simp [executeGo, batchOut]
    | cons p ps ih =>
      cases hp : processItem p with
      | mk recs err =>
        cases err with
        | none => simp [executeGo, batchOut, hp, ih, Except.map]
        | some e => simp [executeGo, batchOut, hp, ih, Except.map]
  · intro idx p ps recs e h
    simp [executeGo, h]
  · intro idx p ps recs h
    simp [executeGo, h]

/-- A well-formed input item: one multi `li` text rule over the `A, B, C`
document. -/
def goodItem : ItemParams :=
  ⟨.ok [Field.mk "t" "li" "text" ValueBy.vbNone true], .ok [demoABC]⟩

/-- An input item whose `rules` JSON failed to parse. -/
def badItem : ItemParams :=
  ⟨.error "Rules are invalid. Expected an array or an object, got nonsense",
    .ok [demoABC]⟩

/-- Witness for C8 (amended): the failing middle item contributes exactly
its error placeholder at position 1, the surrounding items are processed,
and with continue-on-failure disabled the bad item aborts the batch. -/
theorem claim8_witness :
    executeGo true 0 [goodItem, badItem, goodItem] =
      .ok [([("t", RValue.sList ["A", "B", "C"])], 0),
        (errRecord "Rules are invalid. Expected an array or an object, got nonsense", 1),
        ([("t", RValue.sList ["A", "B", "C"])], 2)] ∧
    executeGo false 0 [badItem, goodItem] =
      .error "Rules are invalid. Expected an array or an object, got nonsense" := by
  constructor
  · rw [claim8.1]
    simp +decide [batchOut, processItem, goodItem, badItem, runDocs,
      resolveSelectFields, resolveFields, resolveField, findAll, demoABC,
      HNode.descendants, descList, setKey, HNode.textContent, textContentList]
  · exact claim8.2.1 0 badItem [goodItem] [] _ (by simp [processItem, badItem])

/-- Counterexample to C9 as stated: a `text` rule whose `valueSource` is a
nested rule array (a shape mismatch per the claim) raises no error at all —
the text branch never inspects `valueBy` and the rule resolves normally. -/
theorem claim9_counterexample :
    resolveSelectFields [Field.mk "t" "p" "text"
        (ValueBy.vbFields [Field.mk "q" "q" "text" ValueBy.vbNone false]) false]
      demoNoLi = Except.ok [("t", RValue.s "x")] := by
  simp +decide [resolveSelectFields, resolveFields, resolveField, findAll, demoNoLi,
    HNode.descendants, descList, setKey, HNode.textContent, textContentList]

/-- C9 (amended): the code never validates the shape of `valueBy` against
`valueType`: a `text` rule's result is independent of `valueBy` (so an
array-shaped `valueBy` resolves with no error); an `object` rule whose
`valueBy` is a string yields an empty nested mapping with no error; only an
`object` rule with an absent `valueBy` fails, and then with a generic
iteration `TypeError` that does not carry the rule's name — never with the
invalid-rule-configuration error. -/
theorem claim9 :
    (∀ (name sel : String) (vb vb' : ValueBy) (m : Bool) (base : HNode)
        (acc : RRecord),
        resolveField (.mk name sel "text" vb m) base acc =
          resolveField (.mk name sel "text" vb' m) base acc) ∧
    (∀ (name sel s : String) (base : HNode) (acc : RRecord) (el : HNode)
        (rest : List HNode), sel ≠ "" → findAll sel base = el :: rest →
        resolveField (.mk name sel "object" (.vbStr s) false) base acc =
          .ok (setKey acc name (.obj []))) ∧
    (∀ (name sel : String) (base : HNode) (acc : RRecord) (el : HNode)
        (rest : List HNode), sel ≠ "" → findAll sel base = el :: rest →
        resolveField (.mk name sel "object" ValueBy.vbNone false) base acc =
          .error "TypeError: undefined is not iterable") := by
  refine ⟨?_, ?_, ?_⟩
  · intro name sel vb vb' m base acc
    by_cases hs : sel = ""
    · simp [resolveField, hs]
    · cases m
      · cases hm : findAll sel base with
        | nil => simp [resolveField, hs, hm]
        | cons el rest => simp [resolveField, hs, hm]
      · simp [resolveField, hs]
  · intro name sel s base acc el rest hs hm
    simp [resolveField, hs, hm, resolveSub]
  · intro name sel base acc el rest hs hm
    simp [resolveField, hs, hm, resolveSub]

/-- Witness for C9 (amended): on a matched `p`, an `object` rule with a
string `valueBy` yields an empty nested mapping without error, and one with
an absent `valueBy` fails with the generic `TypeError`. -/
theorem claim9_witness :
    resolveField (Field.mk "o" "p" "object" (ValueBy.vbStr "zzz") false)
        demoNoLi [] = Except.ok [("o", RValue.obj [])] ∧
    resolveField (Field.mk "o" "p" "object" ValueBy.vbNone false) demoNoLi [] =
      Except.error "TypeError: undefined is not iterable" := by
  constructor
  · have h := claim9.2.1 "o" "p" "zzz" demoNoLi [] (.elem "p" [] [.textN "x"]) []
      (by decide)
      (by simp +decide [findAll, demoNoLi, HNode.descendants, descList])
    rw [h]
    simp [setKey]
  · exact claim9.2.2 "o" "p" demoNoLi [] (.elem "p" [] [.textN "x"]) []
      (by decide)
      (by simp +decide [findAll, demoNoLi, HNode.descendants, descList])

/-- C10: a rule with `multi = false` and no match is skipped before the
`valueType` dispatch — whatever its `valueType` (even an unrecognized one),
no error is raised, the rule is dropped and the remaining rules continue;
conversely an invalid-rule error can only fire when `multi` is true or at
least one node matched. -/
theorem claim10 (name sel vt : String) (vb : ValueBy) (base : HNode) (acc : RRecord)
    (hm : findAll sel base = []) :
    resolveField (.mk name sel vt vb false) base acc = .ok acc ∧
    (∀ rest, resolveFields (Field.mk name sel vt vb false :: rest) base acc =
        resolveFields rest base acc) ∧
    (∀ (f : Field) (b : HNode) (a : RRecord) (e : String),
        resolveField f b a = .error e →
        f.multi = true ∨ findAll f.selector b ≠ []) := by
  have hfield : resolveField (.mk name sel vt vb false) base acc = .ok acc := by
    by_cases hs : sel = ""
    · simp [resolveField, hs]
    · simp [resolveField, hs, hm]
  refine ⟨hfield, fun rest => by simp [resolveFields, hfield], ?_⟩
  intro f b a e h
  obtain ⟨v, s, t, w, m⟩ := f
  cases m
  · right
    intro hnil
    simp only [Field.selector] at hnil
    by_cases hs : s = ""
    · simp [resolveField, hs] at h
    · simp [resolveField, hs, hnil] at h
  · exact Or.inl rfl

/-- Witness for C10: a `multi = false` rule with `valueType = "bogus"` and
no match is silently dropped and the following rule still runs. -/
theorem claim10_witness :
    resolveFields [Field.mk "x" "li" "bogus" ValueBy.vbNone false,
        Field.mk "t" "p" "text" ValueBy.vbNone false] demoNoLi [] =
      Except.ok [("t", RValue.s "x")] := by
  have h := (claim10 "x" "li" "bogus" ValueBy.vbNone demoNoLi []
    (by simp +decide [findAll, demoNoLi, HNode.descendants, descList])).2.1
    [Field.mk "t" "p" "text" ValueBy.vbNone false]
  rw [h]
  simp +decide [resolveFields, resolveField, findAll, demoNoLi, HNode.descendants,
    descList, setKey, HNode.textContent, textContentList]

end HtmlCheerio
